import Mathlib

/-!
Verification of the cuid2 Go library (package `cuid2`, file `cuid2.go`)
against its natural-language specification.

The Go code is shallowly embedded: strings are `List Char` (the identifiers
involved are ASCII, where Go's byte strings and char lists coincide),
`int`/`int64` are `Int` (with explicit two's-complement wrapping where the
64-bit width matters), and the `float64` values produced by a random function
are modelled exactly as rational numbers given by an integer numerator and a
positive integer denominator. The SHA3-512 hash used by `hash()` is
implemented concretely (Keccak-f[1600] over `Nat` lanes reduced mod 2^64),
so that all pipeline computations are executable inside the kernel.
-/

set_option maxRecDepth 1000000

namespace Cuid2

/-! ## Constants (cuid2.go lines 20-30) -/

def DefaultIdLength : Nat := 24

def MinIdLength : Nat := 2

def MaxIdLength : Nat := 32

def MaxSessionCount : Int := 476782367

/-! ## The random function model

A Go random function returns a `float64`; the code only assumes its values
lie in [0,1).  A produced value is modelled exactly as the rational
`num / den`.  A random *function* (stateful: successive calls return
successive values) is modelled as a stream `Nat → RandVal` together with an
index of the next value to be consumed. -/

structure RandVal where
  num : Int
  den : Int
deriving Repr, DecidableEq

/-- The value `num / den` lies in the half-open interval [0,1)
(with a positive denominator, so the fraction is well defined). -/
def RandVal.inRange01 (v : RandVal) : Prop :=
  0 < v.den ∧ 0 ≤ v.num ∧ v.num < v.den

instance (v : RandVal) : Decidable v.inRange01 := by
  unfold RandVal.inRange01
  infer_instance

/-- Embeds `getRandomInt` (cuid2.go lines 272-274):
`int64(math.Floor(randomFunc() * float64(max)))`.
For `v = num/den` with `den > 0`, the real number `v * max` has floor
`(num * max) / den` in euclidean integer division. -/
def getRandomInt (v : RandVal) (mx : Int) : Int :=
  v.num * mx / v.den

/-! ## Base-36 formatting

Both `strconv.FormatInt(·, 36)` and `big.Int.Text(36)` render a number in
base 36 with the lowercase digit table "0123456789abcdefghijklmnopqrstuvwxyz". -/

def digits36 : List Char :=
  (List.range 10).map (fun n => Char.ofNat (48 + n)) ++
    (List.range 26).map (fun n => Char.ofNat (97 + n))

def digitChar36 (n : Nat) : Char := digits36.getD n '0'

/-- Digit-accumulating loop of the base-36 renderers; `fuel` is an upper
bound on the number of digits still to be produced (the Go loops iterate
until the value is exhausted; `fuel = n + 1` always suffices). -/
def toDigits36 : Nat → Nat → List Char → List Char
  | 0, _, acc => acc
  | fuel + 1, n, acc =>
    if n < 36 then digitChar36 n :: acc
    else toDigits36 fuel (n / 36) (digitChar36 (n % 36) :: acc)

/-- Base-36 rendering of a natural number, lowercase digits; `0` renders
as "0" exactly as in Go. -/
def formatNat36 (n : Nat) : List Char := toDigits36 (n + 1) n []

/-- Embeds `strconv.FormatInt(i, 36)` for an `int64` value. -/
def formatInt36 (i : Int) : List Char :=
  if i < 0 then '-' :: formatNat36 (-i).toNat else formatNat36 i.toNat

/-! ## SHA3-512 (golang.org/x/crypto/sha3), implemented concretely.

State: 25 lanes of 64 bits, kept as `Nat` values < 2^64 (explicit masking).
Lane (x, y) is stored at index `x + 5 * y`. -/

def mask64 : Nat := 2 ^ 64 - 1

def rotl64 (x n : Nat) : Nat := ((x <<< n) ||| (x >>> (64 - n))) &&& mask64

def rhoOffsets : List Nat :=
  [0, 1, 62, 28, 27] ++ [36, 44, 6, 55, 20] ++ [3, 10, 43, 25, 39] ++
    [41, 45, 15, 21, 8] ++ [18, 2, 61, 56, 14]

def roundConstants : List Nat :=
  [0x0000000000000001, 0x0000000000008082, 0x800000000000808a] ++
    [0x8000000080008000, 0x000000000000808b, 0x0000000080000001] ++
    [0x8000000080008081, 0x8000000000008009, 0x000000000000008a] ++
    [0x0000000000000088, 0x0000000080008009, 0x000000008000000a] ++
    [0x000000008000808b, 0x800000000000008b, 0x8000000000008089] ++
    [0x8000000000008003, 0x8000000000008002, 0x8000000000000080] ++
    [0x000000000000800a, 0x800000008000000a, 0x8000000080008081] ++
    [0x8000000000008080, 0x0000000080000001, 0x8000000080008008]

def theta (A : List Nat) : List Nat :=
  let C := (List.range 5).map (fun x =>
    (A.getD x 0) ^^^ (A.getD (x + 5) 0) ^^^ (A.getD (x + 10) 0) ^^^
      (A.getD (x + 15) 0) ^^^ (A.getD (x + 20) 0))
  let D := (List.range 5).map (fun x =>
    (C.getD ((x + 4) % 5) 0) ^^^ rotl64 (C.getD ((x + 1) % 5) 0) 1)
  (List.range 25).map (fun i => (A.getD i 0) ^^^ (D.getD (i % 5) 0))

def rhoPi (A : List Nat) : List Nat :=
  (List.range 25).foldl (fun B i =>
    let x := i % 5
    let y := i / 5
    B.set (y + 5 * ((2 * x + 3 * y) % 5)) (rotl64 (A.getD i 0) (rhoOffsets.getD i 0)))
    (List.replicate 25 0)

def chi (B : List Nat) : List Nat :=
  (List.range 25).map (fun i =>
    let x := i % 5
    let y := i / 5
    (B.getD i 0) ^^^
      (((B.getD ((x + 1) % 5 + 5 * y) 0) ^^^ mask64) &&& (B.getD ((x + 2) % 5 + 5 * y) 0)))

def keccakRound (A : List Nat) (rc : Nat) : List Nat :=
  let C := chi (rhoPi (theta A))
  C.set 0 ((C.getD 0 0) ^^^ rc)

def keccakF (A : List Nat) : List Nat := roundConstants.foldl keccakRound A

/-- SHA3 pad10*1 with domain separation byte 0x06, rate 72 bytes (576 bits). -/
def padMsg (msg : List Nat) : List Nat :=
  let q := 72 - msg.length % 72
  if q = 1 then msg ++ [0x86]
  else msg ++ 0x06 :: (List.replicate (q - 2) 0 ++ [0x80])

/-- Eight bytes, little-endian, into one 64-bit lane. -/
def bytesToLane (bs : List Nat) : Nat := bs.foldr (fun b acc => b + 256 * acc) 0

def blockLanes (block : List Nat) : List Nat :=
  (List.range 9).map (fun j => bytesToLane ((block.drop (8 * j)).take 8))

def absorbBlocks (st : List Nat) (blocks : List (List Nat)) : List Nat :=
  blocks.foldl (fun s b =>
    let bl := blockLanes b
    keccakF ((List.range 25).map (fun i => (s.getD i 0) ^^^ (bl.getD i 0)))) st

def chunk72 : Nat → List Nat → List (List Nat)
  | 0, _ => []
  | fuel + 1, l => if l.isEmpty then [] else l.take 72 :: chunk72 fuel (l.drop 72)

/-- The 64-byte SHA3-512 digest of a byte message. -/
def sha3_512Bytes (msg : List Nat) : List Nat :=
  let padded := padMsg msg
  let st := absorbBlocks (List.replicate 25 0) (chunk72 padded.length padded)
  (List.range 64).map (fun k => ((st.getD (k / 8) 0) >>> (8 * (k % 8))) &&& 255)

/-- Embeds `new(big.Int).SetBytes(hashDigest)`: the digest bytes read as one
big-endian unsigned integer. -/
def sha3_512Num (msg : List Nat) : Nat :=
  (sha3_512Bytes msg).foldl (fun acc b => acc * 256 + b) 0

/-- UTF-8 encoding of one character (Go `[]byte(input)` on a string). -/
def utf8Encode (c : Char) : List Nat :=
  let n := c.toNat
  if n < 0x80 then [n]
  else if n < 0x800 then
    [0xC0 ||| (n >>> 6), 0x80 ||| (n &&& 0x3F)]
  else if n < 0x10000 then
    [0xE0 ||| (n >>> 12), 0x80 ||| ((n >>> 6) &&& 0x3F), 0x80 ||| (n &&& 0x3F)]
  else
    [0xF0 ||| (n >>> 18), 0x80 ||| ((n >>> 12) &&& 0x3F),
     0x80 ||| ((n >>> 6) &&& 0x3F), 0x80 ||| (n &&& 0x3F)]

def utf8Bytes (s : List Char) : List Nat := (s.map utf8Encode).flatten

/-- Embeds `hash` (cuid2.go lines 256-262): SHA3-512 over the input bytes,
digest read as a big-endian big integer, rendered in base 36, with the
first character of the rendering dropped (`Text(Base36)[1:]`). -/
def hashGo (input : List Char) : List Char :=
  (formatNat36 (sha3_512Num (utf8Bytes input))).drop 1

/-! ### Known-answer tests for the SHA3-512 implementation -/

/-- SHA3-512 of the empty message matches the published FIPS-202 test vector. -/
theorem sha3_512_kat_empty : sha3_512Bytes [] =
    [0xa6, 0x9f, 0x73, 0xcc, 0xa2, 0x3a, 0x9a, 0xc5, 0xc8, 0xb5, 0x67, 0xdc, 0x18, 0x5a, 0x75, 0x6e,
     0x97, 0xc9, 0x82, 0x16, 0x4f, 0xe2, 0x58, 0x59, 0xe0, 0xd1, 0xdc, 0xc1, 0x47, 0x5c, 0x80, 0xa6,
     0x15, 0xb2, 0x12, 0x3a, 0xf1, 0xf5, 0xf9, 0x4c, 0x11, 0xe3, 0xe9, 0x40, 0x2c, 0x3a, 0xc5, 0x58,
     0xf5, 0x00, 0x19, 0x9d, 0x95, 0xb6, 0xd3, 0xe3, 0x01, 0x75, 0x85, 0x86, 0x28, 0x1d, 0xcd, 0x26] := by
  decide

/-- SHA3-512 of "abc" matches the published FIPS-202 test vector. -/
theorem sha3_512_kat_abc : sha3_512Bytes (utf8Bytes ['a', 'b', 'c']) =
    [0xb7, 0x51, 0x85, 0x0b, 0x1a, 0x57, 0x16, 0x8a, 0x56, 0x93, 0xcd, 0x92, 0x4b, 0x6b, 0x09, 0x6e,
     0x08, 0xf6, 0x21, 0x82, 0x74, 0x44, 0xf7, 0x0d, 0x88, 0x4f, 0x5d, 0x02, 0x40, 0xd2, 0x71, 0x2e,
     0x10, 0xe1, 0x16, 0xe9, 0x19, 0x2a, 0xf3, 0xc9, 0x1a, 0x7e, 0xc5, 0x76, 0x47, 0xe3, 0x93, 0x40,
     0x57, 0x34, 0x0b, 0x4c, 0xf4, 0x08, 0xd5, 0xa5, 0x65, 0x92, 0xf8, 0x27, 0x4e, 0xec, 0x53, 0xf0] := by
  decide

/-! ## Alphabet and entropy -/

def alphabets : List Char := (List.range 26).map (fun n => Char.ofNat (97 + n))

/-- Embeds `getRandomAlphabet` (cuid2.go lines 264-268):
`string(alphabets[getRandomInt(randomFunc, AlphabetSize)])`.
Go panics when the index is out of range [0,26); the embedding totalises
the lookup with `getD` (claims only concern in-range random values). -/
def getRandomAlphabet (v : RandVal) : List Char :=
  [alphabets.getD (getRandomInt v 26).toNat 'a']

/-- Loop of `createEntropy` (cuid2.go lines 233-235): while the accumulator
is shorter than `len`, append `strconv.FormatInt(getRandomInt(randomFunc, Base36), Base36)`.
Each appended chunk is nonempty, and at most `len` iterations can run before
the accumulator reaches length `len`, so `fuel = len` makes the fuel-based
recursion exactly mirror the Go while-loop.  Returns the accumulator and the
index of the next unconsumed random value. -/
def createEntropyCore (r : Nat → RandVal) (len : Nat) :
    Nat → Nat → List Char → List Char × Nat
  | 0, idx, acc => (acc, idx)
  | fuel + 1, idx, acc =>
    if acc.length < len then
      createEntropyCore r len fuel (idx + 1) (acc ++ formatInt36 (getRandomInt (r idx) 36))
    else (acc, idx)

/-- Embeds `createEntropy` (cuid2.go lines 228-238): the loop above followed
by `builder.String()[:length]`. -/
def createEntropy (len : Nat) (r : Nat → RandVal) (idx : Nat) : List Char × Nat :=
  let p := createEntropyCore r len len idx []
  (p.1.take len, p.2)

/-! ## Session counter (cuid2.go lines 52-62)

`SessionCounter.value` is an `int64` and `Increment` is
`atomic.AddInt64(&sc.value, 1)`, which wraps around on two's-complement
overflow. -/

def Int64Min : Int := -(2 ^ 63)

def Int64Max : Int := 2 ^ 63 - 1

/-- Two's-complement wrap of an integer into the `int64` range. -/
def wrap64 (n : Int) : Int := (n + 2 ^ 63) % 2 ^ 64 + Int64Min

/-- Embeds `SessionCounter.Increment`: add 1 with `int64` wraparound and
return the new value. -/
def sessionIncrement (v : Int) : Int := wrap64 (v + 1)

/-- The counter value after `k` successive `Increment` calls starting from `v`. -/
def sessionIncrementN (v : Int) : Nat → Int
  | 0 => v
  | k + 1 => sessionIncrement (sessionIncrementN v k)

/-! ## The generator (cuid2.go lines 64-116) -/

/-- The mutable state a generator closure threads between calls: the session
counter value and the index of the next random-stream value. -/
structure GenState where
  counter : Int
  ridx : Nat
deriving Repr, DecidableEq

/-- Embeds `cuidGenerator.generate` (cuid2.go lines 108-116) for a generator
with the given `length` and `fingerprint`: draw the leading letter, render
the timestamp and the incremented counter in base 36, draw the entropy salt,
concatenate time + salt + counter + fingerprint, hash, and return the
leading letter followed by `hash(hashInput)[1:length]` (which drops one
further character of the already-stripped digest).  Go's slice panics when
the digest is shorter than `length`; `drop`/`take` totalise this. -/
def generate (length : Nat) (fingerprint : List Char) (timeMs : Int)
    (r : Nat → RandVal) (st : GenState) : List Char × GenState :=
  let firstLetter := getRandomAlphabet (r st.ridx)
  let timeStr := formatInt36 timeMs
  let newCount := sessionIncrement st.counter
  let countStr := formatInt36 newCount
  let saltP := createEntropy length r (st.ridx + 1)
  let hashInput := timeStr ++ saltP.1 ++ countStr ++ fingerprint
  (firstLetter ++ ((hashGo hashInput).drop 1).take (length - 1), ⟨newCount, saltP.2⟩)

/-- The exact string `generate` feeds to `hash` on a given call
(`timeStr + salt + countStr + g.fingerprint`). -/
def hashInputOf (length : Nat) (fingerprint : List Char) (timeMs : Int)
    (r : Nat → RandVal) (st : GenState) : List Char :=
  formatInt36 timeMs ++ (createEntropy length r (st.ridx + 1)).1 ++
    formatInt36 (sessionIncrement st.counter) ++ fingerprint

/-! ## Validator (cuid2.go lines 134-143) -/

def isLowerLetter (c : Char) : Bool := decide ('a' ≤ c) && decide (c ≤ 'z')

def isDigitOrLower (c : Char) : Bool :=
  (decide ('0' ≤ c) && decide (c ≤ '9')) || isLowerLetter c

/-- Full-string matching of the code's regular expression `^[a-z][0-9a-z]+$`:
a lowercase letter followed by one or more characters in `[0-9a-z]`. -/
def matchCuidRegex : List Char → Bool
  | [] => false
  | c :: rest => isLowerLetter c && !rest.isEmpty && rest.all isDigitOrLower

/-- Embeds `IsCuid`: the regular expression must match and the length must
lie in `[MinIdLength, MaxIdLength]`. -/
def IsCuid (s : List Char) : Bool :=
  matchCuidRegex s && decide (MinIdLength ≤ s.length) && decide (s.length ≤ MaxIdLength)

/-! ## Configuration options and Init (cuid2.go lines 32-46, 70-106, 146-191) -/

/-- The configuration record the options mutate.  The session counter object
is represented by its current `int64` value. -/
structure Config where
  randomFunc : Nat → RandVal
  sessionCounter : Int
  length : Int
  fingerprint : List Char

/-- The configuration errors `Option` functions can return.  The Go error
texts are: for the random function, "Error: the provided random function
does not generate a value between 0 and 1"; for the length, "Error: Can
only generate Cuid's with a length between 2 and 32". -/
inductive ConfigError where
  | randomFuncOutOfRange
  | lengthOutOfRange
deriving Repr, DecidableEq

def OptionFn := Config → Except ConfigError Config

/-- Embeds `WithRandomFunc` (cuid2.go lines 146-158): sample the provided
function once (`randomness := randomFunc()`, the stream's first value) and
reject when `randomness < 0 || randomness > 1`; for a value `num/den` with
`den > 0` those comparisons are `num < 0` and `den < num`.  On success the
stored function continues from the next stream value. -/
def WithRandomFunc (f : Nat → RandVal) : OptionFn := fun cfg =>
  let randomness := f 0
  if randomness.num < 0 ∨ randomness.den < randomness.num then
    .error .randomFuncOutOfRange
  else
    .ok { cfg with randomFunc := fun i => f (i + 1) }

/-- Embeds `WithSessionCounter` (cuid2.go lines 162-167). -/
def WithSessionCounter (c : Int) : OptionFn := fun cfg =>
  .ok { cfg with sessionCounter := c }

/-- Embeds `WithLength` (cuid2.go lines 172-182): reject when
`length < MinIdLength || length > MaxIdLength`. -/
def WithLength (length : Int) : OptionFn := fun cfg =>
  if length < (MinIdLength : Int) ∨ (MaxIdLength : Int) < length then
    .error .lengthOutOfRange
  else
    .ok { cfg with length := length }

/-- Embeds `WithFingerprint` (cuid2.go lines 186-191). -/
def WithFingerprint (fp : List Char) : OptionFn := fun cfg =>
  .ok { cfg with fingerprint := fp }

/-- The option loop of `Init` (cuid2.go lines 89-95): apply options in
order, stopping at (and returning) the first error. -/
def applyOptions : Config → List OptionFn → Except ConfigError Config
  | cfg, [] => .ok cfg
  | cfg, o :: rest =>
    match o cfg with
    | .error e => .error e
    | .ok cfg2 => applyOptions cfg2 rest

/-- Embeds `Init` (cuid2.go lines 75-106).  The ambient default
configuration (built in Go from OS entropy and the environment) is a
parameter.  Returns the generator closure and the error: on an option
error, the closure `func() string { return "" }` (paired with the
unchanged state) together with that first error; on success, a closure
running `generate` over the final configuration. -/
def Init (dflt : Config) (opts : List OptionFn) :
    (Int → GenState → List Char × GenState) × Option ConfigError :=
  match applyOptions dflt opts with
  | .error e => (fun _ st => ([], st), some e)
  | .ok cfg =>
    (fun timeMs st => generate cfg.length.toNat cfg.fingerprint timeMs cfg.randomFunc st,
     none)

/-! ## Environment key string (cuid2.go lines 240-254) -/

/-- Lexicographic (byte-order) comparison used by `sort.Strings`. -/
def strLeB : List Char → List Char → Bool
  | [], _ => true
  | x :: xs, y :: ys =>
    if x < y then true
    else if y < x then false
    else strLeB xs ys
  | _ :: _, [] => false

def strLe (a b : List Char) : Prop := strLeB a b = true

instance : DecidableRel strLe := fun a b =>
  inferInstanceAs (Decidable (strLeB a b = true))

/-- Embeds the key extraction `variable[:strings.IndexByte(variable, '=')]`:
everything before the first `'='` (entries from `os.Environ` always contain
one). -/
def envKey (entry : List Char) : List Char := entry.takeWhile (fun c => c ≠ '=')

/-- Embeds `getEnvironmentKeyString`: names of all environment entries
(values discarded), sorted, joined with no separator. -/
def getEnvironmentKeyString (env : List (List Char)) : List Char :=
  ((env.map envKey).insertionSort strLe).flatten

/-- Embeds `createFingerprint` (cuid2.go lines 216-226): entropy of the
maximal identifier length, the environment key string appended when
nonempty, hashed, with the first character of the digest dropped. -/
def createFingerprint (r : Nat → RandVal) (idx : Nat) (envKeyString : List Char) :
    List Char :=
  let sourceString := (createEntropy MaxIdLength r idx).1
  let withEnv := if envKeyString.length > 0 then sourceString ++ envKeyString else sourceString
  (hashGo withEnv).drop 1

/-! ## Spec-side definitions

These follow the specification's words (not the code), for the refinement
claims that compare the code's behaviour with the spec's description. -/

/-- Spec-side base-36 digit (spec 4.5: "lowercase digits 0-9a-z"),
written arithmetically rather than via the code's digit table. -/
def digitCharSpec (d : Nat) : Char :=
  if d < 10 then Char.ofNat (48 + d) else Char.ofNat (87 + d)

/-- Spec-side base-36 rendering (spec 4.5: "re-renders that integer in
base-36 using lowercase digits 0-9a-z"), built from Mathlib's `Nat.digits`;
`0` renders as "0" as in `big.Int.Text`. -/
def render36Spec (n : Nat) : List Char :=
  if n = 0 then ['0'] else (Nat.digits 36 n).reverse.map digitCharSpec

/-- Spec-side hash digest (spec 4.5): the base-36 rendering of the digest
integer "with the single leading digit stripped". -/
def hashDigestSpec (n : Nat) : List Char := (render36Spec n).drop 1

/-- Full-string matching of the spec's regular expression `^[a-z][a-z0-9]*$`
(spec 4.7): a lowercase letter followed by zero or more chars in `[a-z0-9]`. -/
def matchSpecRegex : List Char → Bool
  | [] => false
  | c :: rest => isLowerLetter c && rest.all isDigitOrLower

/-! ## Lemmas about base-36 rendering -/

theorem digitChar36_eq_spec {d : Nat} (h : d < 36) : digitChar36 d = digitCharSpec d := by
  interval_cases d <;> decide

theorem digitChar36_mem (k : Nat) : digitChar36 k ∈ digits36 := by
  rcases lt_or_ge k 36 with h | h
  · interval_cases k <;> decide
  · unfold digitChar36
    rw [List.getD_eq_default]
    · decide
    · have hlen : digits36.length = 36 := by decide
      omega

theorem toDigits36_length :
    ∀ (fuel n : Nat) (acc : List Char), n < 36 ^ fuel → 0 < fuel →
      (toDigits36 fuel n acc).length = Nat.log 36 n + 1 + acc.length := by
  intro fuel
  induction fuel with
  | zero => intro n acc _ h; omega
  | succ f ih =>
    intro n acc hlt _
    by_cases h36 : n < 36
    · have hlog : Nat.log 36 n = 0 := by
        rw [Nat.log_eq_zero_iff]
        left
        exact h36
      simp [toDigits36, h36, hlog]
      omega
    · push_neg at h36
      have hdiv : n / 36 < 36 ^ f := by
        rw [Nat.div_lt_iff_lt_mul (by norm_num)]
        calc n < 36 ^ (f + 1) := hlt
        _ = 36 ^ f * 36 := by rw [pow_succ]
      have hf : 0 < f := by
        rcases Nat.eq_zero_or_pos f with h0 | h0
        · subst h0
          simp at hdiv
          omega
        · exact h0
      have hstep : toDigits36 (f + 1) n acc =
          toDigits36 f (n / 36) (digitChar36 (n % 36) :: acc) := by
        simp [toDigits36, not_lt.mpr h36]
      rw [hstep, ih (n / 36) (digitChar36 (n % 36) :: acc) hdiv hf]
      have hlogd : Nat.log 36 (n / 36) = Nat.log 36 n - 1 := Nat.log_div_base 36 n
      have hpos : 0 < Nat.log 36 n := Nat.log_pos (by norm_num) h36
      simp [hlogd, List.length_cons]
      omega

theorem formatNat36_length (n : Nat) :
    (formatNat36 n).length = Nat.log 36 n + 1 := by
  unfold formatNat36
  rw [toDigits36_length (n + 1) n []]
  · simp
  · calc n < 36 ^ n := Nat.lt_pow_self (by norm_num) n
    _ ≤ 36 ^ (n + 1) := Nat.pow_le_pow_right (by norm_num) (Nat.le_succ n)
  · omega

theorem toDigits36_eq_spec :
    ∀ (fuel n : Nat) (acc : List Char), n < 36 ^ fuel → 0 < fuel →
      toDigits36 fuel n acc = render36Spec n ++ acc := by
  intro fuel
  induction fuel with
  | zero => intro n acc _ h; omega
  | succ f ih =>
    intro n acc hlt _
    by_cases h36 : n < 36
    · rcases Nat.eq_zero_or_pos n with h0 | h0
      · subst h0
        simp [toDigits36, render36Spec]
        rfl
      · have hn0 : n ≠ 0 := by omega
        have hd : Nat.digits 36 n = [n] := by
          rw [Nat.digits_def' (by norm_num : 1 < 36) h0, Nat.div_eq_of_lt h36]
          simp [Nat.mod_eq_of_lt h36]
        simp only [toDigits36, if_pos h36]
        unfold render36Spec
        rw [if_neg hn0, hd]
        simp [digitChar36_eq_spec h36]
    · push_neg at h36
      have hdiv : n / 36 < 36 ^ f := by
        rw [Nat.div_lt_iff_lt_mul (by norm_num)]
        calc n < 36 ^ (f + 1) := hlt
        _ = 36 ^ f * 36 := by rw [pow_succ]
      have hf : 0 < f := by
        rcases Nat.eq_zero_or_pos f with h0 | h0
        · subst h0
          simp at hdiv
          omega
        · exact h0
      have hstep : toDigits36 (f + 1) n acc =
          toDigits36 f (n / 36) (digitChar36 (n % 36) :: acc) := by
        simp [toDigits36, not_lt.mpr h36]
      rw [hstep, ih (n / 36) (digitChar36 (n % 36) :: acc) hdiv hf]
      have hn0 : n ≠ 0 := by omega
      have hq0 : n / 36 ≠ 0 := by
        have : 0 < n / 36 := Nat.div_pos h36 (by norm_num)
        omega
      have hrender : render36Spec n = render36Spec (n / 36) ++ [digitCharSpec (n % 36)] := by
        unfold render36Spec
        rw [if_neg hn0, if_neg hq0]
        rw [Nat.digits_def' (by norm_num : 1 < 36) (by omega : 0 < n)]
        simp
      rw [hrender, digitChar36_eq_spec (Nat.mod_lt n (by norm_num))]
      simp

theorem formatNat36_eq_spec (n : Nat) : formatNat36 n = render36Spec n := by
  unfold formatNat36
  rw [toDigits36_eq_spec (n + 1) n []]
  · simp
  · calc n < 36 ^ n := Nat.lt_pow_self (by norm_num) n
    _ ≤ 36 ^ (n + 1) := Nat.pow_le_pow_right (by norm_num) (Nat.le_succ n)
  · omega

theorem toDigits36_chars :
    ∀ (fuel n : Nat) (acc : List Char), (∀ c ∈ acc, c ∈ digits36) →
      ∀ c ∈ toDigits36 fuel n acc, c ∈ digits36 := by
  intro fuel
  induction fuel with
  | zero => intro n acc hacc; simpa [toDigits36] using hacc
  | succ f ih =>
    intro n acc hacc c hc
    by_cases h36 : n < 36
    · simp only [toDigits36, if_pos h36] at hc
      rcases List.mem_cons.mp hc with h | h
      · subst h
        exact digitChar36_mem n
      · exact hacc c h
    · simp only [toDigits36, if_neg h36] at hc
      refine ih (n / 36) (digitChar36 (n % 36) :: acc) ?_ c hc
      intro d hd
      rcases List.mem_cons.mp hd with h | h
      · subst h
        exact digitChar36_mem (n % 36)
      · exact hacc d h

theorem formatNat36_chars (n : Nat) : ∀ c ∈ formatNat36 n, c ∈ digits36 :=
  toDigits36_chars (n + 1) n [] (by simp)

theorem formatInt36_single {i : Int} (h0 : 0 ≤ i) (h36 : i < 36) :
    formatInt36 i = [digitChar36 i.toNat] := by
  unfold formatInt36
  rw [if_neg (not_lt.mpr h0)]
  have ht : i.toNat < 36 := by omega
  unfold formatNat36
  simp [toDigits36, ht]

theorem formatNat36_ne_nil (n : Nat) : formatNat36 n ≠ [] := by
  intro h
  have := formatNat36_length n
  rw [h] at this
  simp at this

theorem formatInt36_ne_nil (i : Int) : formatInt36 i ≠ [] := by
  unfold formatInt36
  split
  · simp
  · exact formatNat36_ne_nil _

/-! ## Lemmas about random draws and entropy -/

theorem getRandomInt_nonneg {v : RandVal} (h : v.inRange01) {m : Int} (hm : 0 ≤ m) :
    0 ≤ getRandomInt v m :=
  Int.ediv_nonneg (mul_nonneg h.2.1 hm) (le_of_lt h.1)

theorem getRandomInt_lt {v : RandVal} (h : v.inRange01) {m : Int} (hm : 0 < m) :
    getRandomInt v m < m := by
  unfold getRandomInt
  rw [Int.ediv_lt_iff_lt_mul h.1]
  calc v.num * m < v.den * m := by
        exact mul_lt_mul_of_pos_right h.2.2 hm
  _ = m * v.den := mul_comm _ _

theorem createEntropyCore_closed (r : Nat → RandVal) (len : Nat)
    (hr : ∀ i, (r i).inRange01) :
    ∀ (fuel idx : Nat) (acc : List Char), acc.length + fuel = len →
      createEntropyCore r len fuel idx acc =
        (acc ++ (List.range fuel).map
            (fun k => digitChar36 (getRandomInt (r (idx + k)) 36).toNat),
         idx + fuel) := by
  intro fuel
  induction fuel with
  | zero => intro idx acc _; simp [createEntropyCore]
  | succ f ih =>
    intro idx acc hlen
    have hcond : acc.length < len := by omega
    have hone : formatInt36 (getRandomInt (r idx) 36) =
        [digitChar36 (getRandomInt (r idx) 36).toNat] :=
      formatInt36_single (getRandomInt_nonneg (hr idx) (by norm_num))
        (getRandomInt_lt (hr idx) (by norm_num))
    simp only [createEntropyCore, if_pos hcond]
    rw [hone, ih (idx + 1) (acc ++ [digitChar36 (getRandomInt (r idx) 36).toNat])
      (by simp; omega)]
    have hshift : ∀ k : Nat, idx + 1 + k = idx + (k + 1) := by omega
    simp only [Prod.mk.injEq]
    constructor
    · rw [List.append_assoc, List.range_succ_eq_map, List.map_cons, List.map_map]
      simp [Function.comp, hshift]
    · omega

theorem createEntropy_closed (len : Nat) (r : Nat → RandVal) (idx : Nat)
    (hr : ∀ i, (r i).inRange01) :
    createEntropy len r idx =
      ((List.range len).map (fun k => digitChar36 (getRandomInt (r (idx + k)) 36).toNat),
       idx + len) := by
  unfold createEntropy
  rw [createEntropyCore_closed r len hr len idx [] (by simp)]
  simp

theorem hashGo_length (input : List Char) :
    (hashGo input).length = Nat.log 36 (sha3_512Num (utf8Bytes input)) := by
  unfold hashGo
  rw [List.length_drop, formatNat36_length]
  omega

/-! ## Lemmas about the lexicographic order used by the environment sort -/

theorem strLeB_total : ∀ a b : List Char, strLeB a b = true ∨ strLeB b a = true := by
  intro a
  induction a with
  | nil => intro b; left; rfl
  | cons x xs ih =>
    intro b
    cases b with
    | nil => right; rfl
    | cons y ys =>
      by_cases hxy : x < y
      · left
        simp [strLeB, hxy]
      · by_cases hyx : y < x
        · right
          simp [strLeB, hyx]
        · have hxyeq : x = y := le_antisymm (not_lt.mp hyx) (not_lt.mp hxy)
          subst hxyeq
          rcases ih ys with h | h
          · left
            simpa [strLeB] using h
          · right
            simpa [strLeB] using h

theorem strLeB_trans : ∀ a b c : List Char,
    strLeB a b = true → strLeB b c = true → strLeB a c = true := by
  intro a
  induction a with
  | nil => intro b c _ _; rfl
  | cons x xs ih =>
    intro b c h1 h2
    cases b with
    | nil => simp [strLeB] at h1
    | cons y ys =>
      cases c with
      | nil => simp [strLeB] at h2
      | cons z zs =>
        by_cases hxy : x < y
        · have hyz : y < z ∨ (¬ y < z ∧ ¬ z < y) := by
            by_cases h : y < z
            · exact Or.inl h
            · refine Or.inr ⟨h, ?_⟩
              intro hzy
              simp [strLeB, h, hzy, asymm hzy] at h2
          rcases hyz with h | ⟨h, h'⟩
          · have : x < z := lt_trans hxy h
            simp [strLeB, this]
          · have hyzeq : y = z := le_antisymm (not_lt.mp h') (not_lt.mp h)
            subst hyzeq
            simp [strLeB, hxy]
        · by_cases hyx : y < x
          · simp [strLeB, hxy, hyx] at h1
          · have hxyeq : x = y := le_antisymm (not_lt.mp hyx) (not_lt.mp hxy)
            subst hxyeq
            simp only [strLeB, if_neg (lt_irrefl x)] at h1
            by_cases hxz : x < z
            · simp [strLeB, hxz]
            · by_cases hzx : z < x
              · simp [strLeB, hzx, asymm hzx] at h2
              · have hxzeq : x = z := le_antisymm (not_lt.mp hzx) (not_lt.mp hxz)
                subst hxzeq
                simp only [strLeB, if_neg (lt_irrefl x)] at h2 ⊢
                exact ih ys zs h1 h2

theorem strLeB_antisymm : ∀ a b : List Char,
    strLeB a b = true → strLeB b a = true → a = b := by
  intro a
  induction a with
  | nil =>
    intro b _ h2
    cases b with
    | nil => rfl
    | cons y ys => simp [strLeB] at h2
  | cons x xs ih =>
    intro b h1 h2
    cases b with
    | nil => simp [strLeB] at h1
    | cons y ys =>
      by_cases hxy : x < y
      · simp [strLeB, hxy, asymm hxy] at h2
      · by_cases hyx : y < x
        · simp [strLeB, hxy, hyx] at h1
        · have hxyeq : x = y := le_antisymm (not_lt.mp hyx) (not_lt.mp hxy)
          subst hxyeq
          simp only [strLeB, if_neg (lt_irrefl x)] at h1 h2
          rw [ih ys h1 h2]

instance : IsTotal (List Char) strLe := ⟨strLeB_total⟩

instance : IsTrans (List Char) strLe := ⟨strLeB_trans⟩

instance : IsAntisymm (List Char) strLe := ⟨strLeB_antisymm⟩

/-- The sort used by `getEnvironmentKeyString` produces the same list on any
two permutation-equal inputs. -/
theorem insertionSort_perm_eq {l1 l2 : List (List Char)} (h : l1.Perm l2) :
    l1.insertionSort strLe = l2.insertionSort strLe :=
  List.eq_of_perm_of_sorted
    (((List.perm_insertionSort strLe l1).trans h).trans
      (List.perm_insertionSort strLe l2).symm)
    (List.sorted_insertionSort strLe l1)
    (List.sorted_insertionSort strLe l2)

/-- Key extraction on a well-formed `NAME=value` entry returns the name. -/
theorem envKey_pair {name : List Char} (value : List Char) (h : '=' ∉ name) :
    envKey (name ++ '=' :: value) = name := by
  induction name with
  | nil => simp [envKey]
  | cons c cs ih =>
    have hc : c ≠ '=' := fun he => h (he ▸ List.mem_cons_self c cs)
    have hcs : '=' ∉ cs := fun hm => h (List.mem_cons_of_mem c hm)
    have ih2 := ih hcs
    simp only [envKey] at ih2
    simp only [decide_not] at ih2
    simp only [List.cons_append, envKey, List.takeWhile]
    simp [hc, ih2]

/-! ## Lemmas about the int64 counter -/

theorem wrap64_eq {n : Int} (h1 : Int64Min ≤ n) (h2 : n ≤ Int64Max) : wrap64 n = n := by
  unfold wrap64
  unfold Int64Min at h1 ⊢
  unfold Int64Max at h2
  have e63 : (2 : Int) ^ 63 = 9223372036854775808 := by norm_num
  have e64 : (2 : Int) ^ 64 = 18446744073709551616 := by norm_num
  rw [e63, e64] at *
  rw [Int.emod_eq_of_lt (by omega) (by omega)]
  omega

theorem sessionIncrementN_closed {v : Int} {k : Nat}
    (hlo : Int64Min ≤ v) (hhi : v + k ≤ Int64Max) :
    ∀ j : Nat, j ≤ k → sessionIncrementN v j = v + j := by
  intro j
  induction j with
  | zero => intro _; simp [sessionIncrementN]
  | succ m ih =>
    intro hm
    have hv : sessionIncrementN v m = v + m := ih (by omega)
    have e63 : (2 : Int) ^ 63 = 9223372036854775808 := by norm_num
    have hIlo : Int64Min ≤ v + m + 1 := by
      unfold Int64Min at hlo ⊢
      omega
    have hIhi : v + m + 1 ≤ Int64Max := by
      unfold Int64Max at hhi ⊢
      have : (m : Int) + 1 ≤ (k : Int) := by exact_mod_cast Nat.succ_le_of_lt (by omega)
      omega
    simp only [sessionIncrementN, sessionIncrement, hv]
    rw [wrap64_eq hIlo hIhi]
    push_cast
    ring

/-! ## Lemmas about the option fold -/

theorem applyOptions_append (cfg : Config) (l1 l2 : List OptionFn) :
    applyOptions cfg (l1 ++ l2) =
      match applyOptions cfg l1 with
      | .error e => .error e
      | .ok c => applyOptions c l2 := by
  induction l1 generalizing cfg with
  | nil => simp [applyOptions]
  | cons o rest ih =>
    simp only [List.cons_append, applyOptions]
    cases o cfg with
    | error e => rfl
    | ok c => exact ih c

/-! ## Claim theorems -/

/-- C1: for every generator configured with a length L in [2,32] and a
random function whose values lie in [0,1), a call to `generate()` returns a
string of length exactly L (one leading lowercase letter plus L−1 characters
of the hash digest).  The hypothesis `hdig` pins down the one property of
the concrete SHA3-512 digest the length argument rests on: its value on the
call's hash input reaches 36^32, so its base-36 rendering has at least 33
digits (spec 4.5 requires the consumed prefix to be shorter than the
digest's minimum realistic length for the maximum size 32; a 512-bit digest
falls below 36^32 only with probability < 2^-345). -/
theorem generate_length_eq (len : Nat) (fp : List Char) (t : Int)
    (r : Nat → RandVal) (st : GenState)
    (hmin : MinIdLength ≤ len) (hmax : len ≤ MaxIdLength)
    (hr : ∀ i, (r i).inRange01)
    (hdig : 36 ^ MaxIdLength ≤ sha3_512Num (utf8Bytes (hashInputOf len fp t r st))) :
    ((generate len fp t r st).1).length = len := by
  have hgen : (generate len fp t r st).1 =
      getRandomAlphabet (r st.ridx) ++
        ((hashGo (hashInputOf len fp t r st)).drop 1).take (len - 1) := rfl
  have hN0 : sha3_512Num (utf8Bytes (hashInputOf len fp t r st)) ≠ 0 := by
    have h1 : 0 < 36 ^ MaxIdLength := pow_pos (by norm_num) _
    omega
  have hlog : MaxIdLength ≤ Nat.log 36 (sha3_512Num (utf8Bytes (hashInputOf len fp t r st))) :=
    (Nat.pow_le_iff_le_log (by norm_num) hN0).mp hdig
  rw [hgen, List.length_append, List.length_take, List.length_drop, hashGo_length]
  have hone : (getRandomAlphabet (r st.ridx)).length = 1 := rfl
  rw [hone]
  unfold MinIdLength at hmin
  unfold MaxIdLength at hmax hlog
  omega

/-- Witness for C1 at a concrete call: default length 24, fingerprint
"test-fingerprint", a fixed timestamp and the constant random value 1/10. -/
theorem generate_length_eq_witness :
    36 ^ MaxIdLength ≤ sha3_512Num (utf8Bytes
      (hashInputOf 24 "test-fingerprint".toList 1700000000000 (fun _ => ⟨1, 10⟩) ⟨0, 0⟩))
    ∧ ((generate 24 "test-fingerprint".toList 1700000000000
        (fun _ => ⟨1, 10⟩) ⟨0, 0⟩).1).length = 24 :=
  have hd : 36 ^ MaxIdLength ≤ sha3_512Num (utf8Bytes
      (hashInputOf 24 "test-fingerprint".toList 1700000000000 (fun _ => ⟨1, 10⟩) ⟨0, 0⟩)) := by
    decide
  have hrv : (⟨1, 10⟩ : RandVal).inRange01 := by decide
  ⟨hd, generate_length_eq 24 "test-fingerprint".toList 1700000000000 (fun _ => ⟨1, 10⟩) ⟨0, 0⟩
    (by decide) (by decide) (fun _ => hrv) hd⟩

/-- C2: `IsCuid s` is true exactly when `s` matches the spec's regular
expression `^[a-z][a-z0-9]*$` in full and its length lies in [2,32].  (The
code's regex uses `+` where the spec uses `*`; the two agree on all strings
of length at least 2, and shorter strings fail the length check.) -/
theorem isCuid_iff_spec :
    ∀ s : List Char, IsCuid s = true ↔
      (matchSpecRegex s = true ∧ MinIdLength ≤ s.length ∧ s.length ≤ MaxIdLength) := by
  intro s
  cases s with
  | nil => simp [IsCuid, matchCuidRegex, matchSpecRegex]
  | cons c rest =>
    cases rest with
    | nil =>
      simp [IsCuid, matchCuidRegex, matchSpecRegex, MinIdLength, MaxIdLength]
    | cons d ds =>
      simp only [IsCuid, matchCuidRegex, matchSpecRegex, List.isEmpty_cons,
        Bool.not_false, Bool.and_true, Bool.and_eq_true, decide_eq_true_eq]
      constructor
      · rintro ⟨⟨⟨h1, h2⟩, h3⟩, h4⟩
        exact ⟨⟨h1, h2⟩, h3, h4⟩
      · rintro ⟨⟨h1, h2⟩, h3, h4⟩
        exact ⟨⟨⟨h1, h2⟩, h3⟩, h4⟩

/-- C3 counterexample: at one concrete call (length 10, fingerprint
"test-fingerprint", timestamp 0, constant random value 1/10, counter 0) the
generated string is not the leading letter followed by the *first* nine
characters of the section-4.5 hash digest: the code's `hash(...)[1:length]`
skips one further character of the already-stripped digest. -/
theorem generate_not_first_digest_chars :
    ¬ ((generate 10 "test-fingerprint".toList 0 (fun _ => ⟨1, 10⟩) ⟨0, 0⟩).1 =
        getRandomAlphabet ⟨1, 10⟩ ++
          (hashGo (hashInputOf 10 "test-fingerprint".toList 0
            (fun _ => ⟨1, 10⟩) ⟨0, 0⟩)).take 9) := by
  decide

/-- C3 (amended): the string returned by `generate` equals the randomly
chosen leading letter concatenated with the first (targetLength − 1)
characters of the section-4.5 hash digest *after dropping one more leading
character of that digest* (equivalently, characters 2 through targetLength
of the digest).  The digest here is the spec-side rendering: the SHA3-512
value of time + entropy + counter + fingerprint, written in base 36 via
`Nat.digits`, with its single leading digit stripped. -/
theorem generate_eq_spec_digest (len : Nat) (fp : List Char) (t : Int)
    (r : Nat → RandVal) (st : GenState) :
    (generate len fp t r st).1 =
      getRandomAlphabet (r st.ridx) ++
        ((hashDigestSpec (sha3_512Num (utf8Bytes
            (hashInputOf len fp t r st)))).drop 1).take (len - 1) := by
  have hgen : (generate len fp t r st).1 =
      getRandomAlphabet (r st.ridx) ++
        ((hashGo (hashInputOf len fp t r st)).drop 1).take (len - 1) := rfl
  rw [hgen]
  unfold hashGo hashDigestSpec
  rw [formatNat36_eq_spec]

/-- C4: the registration check of `WithRandomFunc` accepts a random function
whose sampled value is exactly 1, although 1 lies outside [0,1) as the spec
requires; the accepted value 1 then drives `getRandomInt(·, 26)` to 26,
which is one past the last index of the 26-letter alphabet (a Go slice-index
panic in `getRandomAlphabet`). -/
theorem withRandomFunc_accepts_one :
    (∀ dflt : Config, (Init dflt [WithRandomFunc (fun _ => ⟨1, 1⟩)]).2 = none)
    ∧ ¬ (RandVal.inRange01 ⟨1, 1⟩)
    ∧ getRandomInt ⟨1, 1⟩ 26 = 26
    ∧ alphabets.length = 26 := by
  refine ⟨fun dflt => rfl, by decide, by decide, by decide⟩

/-- C5: `Init(WithLength(L))` reports a configuration error exactly when
L < 2 or L > 32, accepts every L in [2,32], and in particular requesting
length 64 fails with the length configuration error. -/
theorem init_withLength_error_iff :
    (∀ (dflt : Config) (L : Int),
      ((Init dflt [WithLength L]).2 = none ↔
        ((MinIdLength : Int) ≤ L ∧ L ≤ (MaxIdLength : Int))))
    ∧ (∀ dflt : Config,
        (Init dflt [WithLength 64]).2 = some ConfigError.lengthOutOfRange) := by
  constructor
  · intro dflt L
    by_cases h : L < (MinIdLength : Int) ∨ (MaxIdLength : Int) < L
    · have he : WithLength L dflt = .error .lengthOutOfRange := by
        unfold WithLength
        rw [if_pos h]
      simp only [Init, applyOptions, he]
      refine iff_of_false (by simp) ?_
      rintro ⟨h1, h2⟩
      rcases h with h | h
      · exact absurd h1 (not_le.mpr h)
      · exact absurd h2 (not_le.mpr h)
    · have hok : WithLength L dflt = .ok { dflt with length := L } := by
        unfold WithLength
        rw [if_neg h]
      simp only [Init, applyOptions, hok]
      push_neg at h
      exact ⟨fun _ => h, fun _ => by trivial⟩
  · intro dflt
    rfl

/-- C6 counterexample: a `SessionCounter` created with the int64 maximum
value 2^63−1 does not return V+1 on `Increment`: `atomic.AddInt64` wraps to
the int64 minimum −2^63. -/
theorem sessionIncrement_wraps_at_max :
    sessionIncrement (2 ^ 63 - 1) = -(2 ^ 63)
    ∧ sessionIncrement (2 ^ 63 - 1) ≠ (2 ^ 63 - 1) + 1 := by
  exact ⟨by decide, by decide⟩

/-- C6 (amended): for a `SessionCounter` created with initial value V, as
long as no int64 overflow occurs (V + k ≤ 2^63 − 1), the j-th of k
successive `Increment` calls returns exactly V + j, so the returned values
V+1, V+2, …, V+k are strictly increasing. -/
theorem sessionCounter_increments (V : Int) (k : Nat)
    (hlo : Int64Min ≤ V) (hhi : V + k ≤ Int64Max) :
    (∀ j : Nat, j ≤ k → sessionIncrementN V j = V + j)
    ∧ (∀ i j : Nat, i < j → j ≤ k →
        sessionIncrementN V i < sessionIncrementN V j) := by
  have hcl := sessionIncrementN_closed hlo hhi
  refine ⟨hcl, fun i j hij hjk => ?_⟩
  rw [hcl i (by omega), hcl j hjk]
  have hij' : (i : Int) < j := by exact_mod_cast hij
  omega

/-- Witness for C6 (amended): the repo's own test values, a counter seeded
at 10 incremented four times returns 14 after the fourth call. -/
theorem sessionCounter_increments_witness :
    Int64Min ≤ (10 : Int) ∧ (10 : Int) + (4 : Nat) ≤ Int64Max
    ∧ sessionIncrementN 10 4 = 10 + (4 : Nat) :=
  ⟨by decide, by decide,
    (sessionCounter_increments 10 4 (by decide) (by decide)).1 4 (le_refl 4)⟩

/-- C7: generation is deterministic (the embedding is a pure function of
length, fingerprint, timestamp, random stream and state), and at the spec's
example configuration (length 10, fingerprint "test-fingerprint", counter
seeded at 0, constant random value 1/10, fixed timestamp 1700000000000 ms)
two successive calls produce the two specific, reproducible, different
strings below, with counter values 1 and 2 — differing by exactly 1. -/
theorem generate_deterministic_example :
    (∀ (len : Nat) (fp : List Char) (t : Int) (r : Nat → RandVal) (st : GenState),
      generate len fp t r st = generate len fp t r st)
    ∧ (generate 10 "test-fingerprint".toList 1700000000000
        (fun _ => ⟨1, 10⟩) ⟨0, 0⟩).1 = "cur0xbn0hq".toList
    ∧ (generate 10 "test-fingerprint".toList 1700000000000
        (fun _ => ⟨1, 10⟩) ⟨0, 0⟩).2 = ⟨1, 11⟩
    ∧ (generate 10 "test-fingerprint".toList 1700000000000
        (fun _ => ⟨1, 10⟩) ⟨1, 11⟩).1 = "cmgxd5oteq".toList
    ∧ "cur0xbn0hq".toList ≠ "cmgxd5oteq".toList
    ∧ (generate 10 "test-fingerprint".toList 1700000000000
        (fun _ => ⟨1, 10⟩) ⟨1, 11⟩).2.counter =
      (generate 10 "test-fingerprint".toList 1700000000000
        (fun _ => ⟨1, 10⟩) ⟨0, 0⟩).2.counter + 1 := by
  refine ⟨fun _ _ _ _ _ => rfl, by decide, by decide, by decide, by decide, by decide⟩

/-- C8: for a random function with values in [0,1), `createEntropy(n, f)`
returns exactly n characters, the k-th being the base-36 digit of
`floor(f() * 36)` for the k-th draw, every character a base-36 digit
`0-9a-z`, and length 0 yields the empty string. -/
theorem createEntropy_spec (len : Nat) (r : Nat → RandVal) (idx : Nat)
    (hr : ∀ i, (r i).inRange01) :
    (createEntropy len r idx).1 =
      (List.range len).map (fun k => digitChar36 (getRandomInt (r (idx + k)) 36).toNat)
    ∧ ((createEntropy len r idx).1).length = len
    ∧ (∀ c ∈ (createEntropy len r idx).1, c ∈ digits36)
    ∧ (createEntropy 0 r idx).1 = [] := by
  have hc : (createEntropy len r idx).1 =
      (List.range len).map (fun k => digitChar36 (getRandomInt (r (idx + k)) 36).toNat) := by
    rw [createEntropy_closed len r idx hr]
  have hc0 : (createEntropy 0 r idx).1 = [] := by
    rw [createEntropy_closed 0 r idx hr]
    simp
  refine ⟨hc, by rw [hc]; simp, ?_, hc0⟩
  intro c hcmem
  rw [hc] at hcmem
  simp only [List.mem_map, List.mem_range] at hcmem
  obtain ⟨k, _, hck⟩ := hcmem
  rw [← hck]
  exact digitChar36_mem _

/-- Witness for C8 at length 3 with the constant random value 1/10. -/
theorem createEntropy_spec_witness :
    (createEntropy 3 (fun _ => ⟨1, 10⟩) 0).1 = ['3', '3', '3']
    ∧ ((createEntropy 3 (fun _ => ⟨1, 10⟩) 0).1).length = 3
    ∧ (createEntropy 0 (fun _ => ⟨1, 10⟩) 0).1 = [] :=
  have hrv : (⟨1, 10⟩ : RandVal).inRange01 := by decide
  have h := createEntropy_spec 3 (fun _ => ⟨1, 10⟩) 0 (fun _ => hrv)
  ⟨by rw [h.1]; decide, h.2.1, h.2.2.2⟩

/-- C9: on an environment of NAME=value entries, `getEnvironmentKeyString`
returns the concatenation, with no separator, of the lexicographically
sorted variable names (values discarded), and its result is invariant under
permuting the environment's enumeration order. -/
theorem envKeyString_spec :
    (∀ pairs : List (List Char × List Char),
      (∀ p ∈ pairs, '=' ∉ p.1) →
      getEnvironmentKeyString (pairs.map (fun p => p.1 ++ '=' :: p.2)) =
        ((pairs.map Prod.fst).insertionSort strLe).flatten)
    ∧ (∀ env1 env2 : List (List Char), env1.Perm env2 →
        getEnvironmentKeyString env1 = getEnvironmentKeyString env2) := by
  constructor
  · intro pairs h
    unfold getEnvironmentKeyString
    have hmap : (pairs.map (fun p => p.1 ++ '=' :: p.2)).map envKey = pairs.map Prod.fst := by
      rw [List.map_map]
      apply List.map_congr_left
      intro p hp
      exact envKey_pair p.2 (h p hp)
    rw [hmap]
  · intro env1 env2 hperm
    unfold getEnvironmentKeyString
    rw [insertionSort_perm_eq (hperm.map envKey)]

/-- Witness for C9: a two-entry environment enumerated in both orders. -/
theorem envKeyString_spec_witness :
    getEnvironmentKeyString [['b', '=', '1'], ['a', '=', '2']] =
      (([['b'], ['a']].insertionSort strLe)).flatten
    ∧ getEnvironmentKeyString [['b', '=', '1'], ['a', '=', '2']] =
      getEnvironmentKeyString [['a', '=', '2'], ['b', '=', '1']] :=
  ⟨envKeyString_spec.1 [(['b'], ['1']), (['a'], ['2'])] (by decide),
   envKeyString_spec.2 [['b', '=', '1'], ['a', '=', '2']]
     [['a', '=', '2'], ['b', '=', '1']] (by decide)⟩

/-- C10: when an option passed to `Init` fails, `Init` returns the error of
the first failing option (later options are not applied: the result does
not depend on `post`), together with a generator closure that returns the
empty string on every call; the empty string is rejected by `IsCuid`. -/
theorem init_error_behaviour (dflt : Config) (pre : List OptionFn) (bad : OptionFn)
    (post : List OptionFn) (cfg2 : Config) (e : ConfigError)
    (hpre : applyOptions dflt pre = .ok cfg2) (hbad : bad cfg2 = .error e) :
    (Init dflt (pre ++ bad :: post)).2 = some e
    ∧ (∀ (t : Int) (st : GenState), (Init dflt (pre ++ bad :: post)).1 t st = ([], st))
    ∧ IsCuid [] = false := by
  have happ : applyOptions dflt (pre ++ bad :: post) = .error e := by
    rw [applyOptions_append, hpre]
    simp [applyOptions, hbad]
  refine ⟨?_, fun t st => ?_, rfl⟩
  · simp [Init, happ]
  · simp [Init, happ]

/-- Witness for C10: a failing `WithLength 64` followed by a further option
that is never applied. -/
theorem init_error_behaviour_witness :
    (Init ⟨fun _ => ⟨0, 1⟩, 0, 24, []⟩ [WithLength 64, WithFingerprint ['x']]).2 =
      some ConfigError.lengthOutOfRange
    ∧ (Init ⟨fun _ => ⟨0, 1⟩, 0, 24, []⟩ [WithLength 64, WithFingerprint ['x']]).1 0 ⟨0, 0⟩ =
      ([], ⟨0, 0⟩)
    ∧ IsCuid [] = false :=
  have h := init_error_behaviour ⟨fun _ => ⟨0, 1⟩, 0, 24, []⟩ [] (WithLength 64)
    [WithFingerprint ['x']] ⟨fun _ => ⟨0, 1⟩, 0, 24, []⟩ ConfigError.lengthOutOfRange rfl rfl
  ⟨h.1, h.2.1 0 ⟨0, 0⟩, h.2.2⟩

end Cuid2
